import Mathlib

/-!
Verification of the storage core of the filesystem repository
(`filesystem2/src/Directory.cpp`, `revise002/filesystem/*`).

The C++ sources are shallowly embedded: machine integers (`uint32_t`)
become `Nat` with an explicit `% 2 ^ 32` where overflow can occur,
`Result<T>` becomes `FsRes`, and disk I/O is modelled by total block maps
(a block read never fails in the model; the `E_IO` paths of the source are
unreachable here and every other control path is translated faithfully).
-/

namespace FsCore

/-- Error codes from `FSTypes.h` (`enum class ErrorCode`). -/
inductive ErrorCode where
  | OK
  | E_IO
  | E_INTERNAL
  | E_INVALID_PARAM
  | E_NOT_FOUND
  | E_ALREADY_EXISTS
  | E_NOT_DIR
  | E_IS_DIR
  | E_NOT_EMPTY
  | E_INVALID_PATH
  | E_NAME_TOO_LONG
  | E_NO_SPACE
  | E_NO_INODE
  | E_FILE_TOO_LARGE
  | E_PERMISSION
  | E_SNAPSHOT_NOT_FOUND
  | E_SNAPSHOT_EXISTS
  | E_MAX_SNAPSHOTS
  deriving DecidableEq, Repr

/-- `Result<T>` from `FSTypes.h`: either a value (`error_ == OK`) or an
error code (`failure`). -/
inductive FsRes (α : Type) where
  | ok (v : α)
  | fail (e : ErrorCode)
  deriving DecidableEq, Repr

/-- File types from `FSTypes.h` (`enum class FileType`). -/
inductive FileType where
  | FREE
  | REGULAR
  | DIRECTORY
  | SYMLINK
  deriving DecidableEq, Repr

/-- `BLOCK_SIZE` (FSTypes.h). -/
def BLOCK_SIZE : Nat := 1024

/-- `NUM_DIRECT_BLOCKS` (FSTypes.h). -/
def NUM_DIRECT_BLOCKS : Nat := 12

/-- `PTRS_PER_BLOCK = BLOCK_SIZE / sizeof(uint32_t)` (FSTypes.h). -/
def PTRS_PER_BLOCK : Nat := 256

/-- `INVALID_BLOCK = 0xFFFFFFFF` (FSTypes.h). -/
def INVALID_BLOCK : Nat := 4294967295

/-- `MAX_FILENAME_LEN` (FSTypes.h). -/
def MAX_FILENAME_LEN : Nat := 56

/-- The on-disk inode record (`struct Inode`, FSTypes.h).  The twelve
direct pointers are a `List Nat` of length 12 read through
`List.getD · INVALID_BLOCK`; times are `Int` (Unix seconds). -/
structure Inode where
  type : FileType
  size : Nat
  link_count : Nat
  ref_count : Nat
  create_time : Int
  modify_time : Int
  access_time : Int
  direct_blocks : List Nat
  single_indirect : Nat
  double_indirect : Nat
  block_count : Nat
  deriving DecidableEq, Repr

/-- `Inode::isRegularFile`. -/
def Inode.isRegularFile (i : Inode) : Bool := i.type = FileType.REGULAR

/-- `Inode::isDirectory`. -/
def Inode.isDirectory (i : Inode) : Bool := i.type = FileType.DIRECTORY

/-- `Inode::maxBlocks()` (FSTypes.h). -/
def Inode.maxBlocks : Nat :=
  NUM_DIRECT_BLOCKS + PTRS_PER_BLOCK + PTRS_PER_BLOCK * PTRS_PER_BLOCK

/-- `Inode::maxFileSize()` (FSTypes.h). -/
def Inode.maxFileSize : Nat := Inode.maxBlocks * BLOCK_SIZE

/-- A total model of the block device.  A real 1024-byte block is viewed
two ways by the source code: as 256 little-endian `uint32_t` pointers when
it is an indirect block (`ptr b i`, `i < 256`) and as raw bytes when it is
a data block (`byte b j`, `j < 1024`).  Reads always succeed (no `E_IO`). -/
structure Disk where
  ptr : Nat → Nat → Nat
  byte : Nat → Nat → Nat

/-- `Directory::getIndirectBlock` (Directory.cpp): bounds-check the slot,
read the indirect block, and fail with `E_NOT_FOUND` on an absent pointer. -/
def getIndirectBlock (d : Disk) (indirect_block : Nat) (index : Nat) : FsRes Nat :=
  if indirect_block = INVALID_BLOCK ∨ index ≥ PTRS_PER_BLOCK then
    .fail .E_INVALID_PARAM
  else if d.ptr indirect_block index = INVALID_BLOCK then
    .fail .E_NOT_FOUND
  else
    .ok (d.ptr indirect_block index)

/-- `Directory::getFileBlock` (Directory.cpp lines 1193-1230): resolve a
file block index through the direct / single-indirect / double-indirect
pointer levels. -/
def getFileBlock (d : Disk) (inode : Inode) (block_index : Nat) : FsRes Nat :=
  if block_index < NUM_DIRECT_BLOCKS then
    let block := inode.direct_blocks.getD block_index INVALID_BLOCK
    if block = INVALID_BLOCK then .fail .E_NOT_FOUND
    else .ok block
  else
    let i1 := block_index - NUM_DIRECT_BLOCKS
    if i1 < PTRS_PER_BLOCK then
      if inode.single_indirect = INVALID_BLOCK then .fail .E_NOT_FOUND
      else getIndirectBlock d inode.single_indirect i1
    else
      let i2 := i1 - PTRS_PER_BLOCK
      if i2 < PTRS_PER_BLOCK * PTRS_PER_BLOCK then
        if inode.double_indirect = INVALID_BLOCK then .fail .E_NOT_FOUND
        else
          match getIndirectBlock d inode.double_indirect (i2 / PTRS_PER_BLOCK) with
          | .fail e => .fail e
          | .ok l1 => getIndirectBlock d l1 (i2 % PTRS_PER_BLOCK)
      else .fail .E_FILE_TOO_LARGE

/-- Follow one pointer as the specification describes it: an
`INVALID_BLOCK` pointer reads as `E_NOT_FOUND`. -/
def specFollow (p : Nat) (k : Nat → FsRes Nat) : FsRes Nat :=
  if p = INVALID_BLOCK then .fail .E_NOT_FOUND else k p

/-- The file-block lookup exactly as the specification sentence words it:
direct pointer `k` for `k < 12`; slot `k - 12` of the single-indirect
block for `12 ≤ k < 268`; slot `(k-268)/256` of the double-indirect block
followed by slot `(k-268)%256` for `268 ≤ k < 268 + 65536`;
`E_FILE_TOO_LARGE` beyond; any followed pointer that is `INVALID_BLOCK`
gives `E_NOT_FOUND`. -/
def specGetFileBlock (d : Disk) (inode : Inode) (k : Nat) : FsRes Nat :=
  if k < 12 then
    specFollow (inode.direct_blocks.getD k INVALID_BLOCK) .ok
  else if k < 268 then
    specFollow inode.single_indirect fun s =>
      specFollow (d.ptr s (k - 12)) .ok
  else if k < 268 + 65536 then
    specFollow inode.double_indirect fun dd =>
      specFollow (d.ptr dd ((k - 268) / 256)) fun l1 =>
        specFollow (d.ptr l1 ((k - 268) % 256)) .ok
  else .fail .E_FILE_TOO_LARGE

/-! ### File engine: truncate and freeFileBlocks (Directory.cpp) -/

/-- The inode table and the block device together: the state read and
written by `readFileByInode` / `writeFileByInode`.  `Allocator::readInode`
and `writeInode` become lookups/updates of a total inode table. -/
structure FileSt where
  inodes : Nat → Inode
  disk : Disk

/-- `to_read` of one iteration of the read loop of
`Directory::readFileByInode`: `min(BLOCK_SIZE - block_offset, length -
bytes_read)`. -/
def chunkLen (pos remaining : Nat) : Nat :=
  min (BLOCK_SIZE - pos % BLOCK_SIZE) remaining

/-- The bytes one iteration of the read loop produces: `len` bytes of the
block found by `getFileBlock` at index `pos / 1024` starting at offset
`pos % 1024`, or zeros when the lookup fails (a hole). -/
def readChunk (d : Disk) (inode : Inode) (pos len : Nat) : List Nat :=
  match getFileBlock d inode (pos / BLOCK_SIZE) with
  | .fail _ => List.replicate len 0
  | .ok b => (List.range len).map fun i => d.byte b (pos % BLOCK_SIZE + i)

/-- The `while (bytes_read < length)` loop of
`Directory::readFileByInode`: reads `remaining` bytes starting at file
offset `pos`, one block-limited chunk at a time. -/
def readLoop (d : Disk) (inode : Inode) (pos remaining : Nat) : List Nat :=
  if _h : remaining = 0 then []
  else
    readChunk d inode pos (chunkLen pos remaining) ++
      readLoop d inode (pos + chunkLen pos remaining)
        (remaining - chunkLen pos remaining)
termination_by remaining
decreasing_by
  have hb : pos % BLOCK_SIZE < BLOCK_SIZE := Nat.mod_lt _ (by norm_num [BLOCK_SIZE])
  simp only [chunkLen, BLOCK_SIZE] at *
  omega

/-- `Directory::readFileByInode` (Directory.cpp lines 830-881): reject
non-regular inodes with `E_IS_DIR`; an offset at or past the file size
returns an empty vector; otherwise the length is clamped to the file
size (a zero requested length means "to the end"), the loop reads the
bytes, and the access time is refreshed. -/
def readFileByInode (s : FileSt) (inode_id : Nat) (offset length0 : Nat)
    (now : Int) : FsRes (List Nat) × FileSt :=
  let inode := s.inodes inode_id
  if ¬ inode.isRegularFile then (.fail .E_IS_DIR, s)
  else if offset ≥ inode.size then (.ok [], s)
  else
    let length :=
      if length0 = 0 ∨ offset + length0 > inode.size then inode.size - offset
      else length0
    let data := readLoop s.disk inode offset length
    let inode' := { inode with access_time := now }
    (.ok data,
      { s with inodes := fun j => if j = inode_id then inode' else s.inodes j })

/-- `Directory::writeFileByInode` (Directory.cpp lines 901-985) up to its
write loop.  The early returns are translated exactly: empty data returns
success 0 before anything is read; a non-regular inode fails with
`E_IS_DIR`; a 32-bit end offset (`offset + data.size()` in `uint32_t`
arithmetic) beyond `Inode::maxFileSize` fails with `E_FILE_TOO_LARGE`.
The block-writing loop and the final inode update are abstracted as the
continuation `rest`, so every theorem about the early paths holds for
every behaviour of the remainder. -/
def writeFileByInode
    (rest : FileSt → Nat → List Nat → Nat → Nat → FsRes Nat × FileSt)
    (s : FileSt) (inode_id : Nat) (data : List Nat) (offset : Nat) :
    FsRes Nat × FileSt :=
  if data = [] then (.ok 0, s)
  else
    let inode := s.inodes inode_id
    if ¬ inode.isRegularFile then (.fail .E_IS_DIR, s)
    else
      let write_end := (offset + data.length) % 2 ^ 32
      if write_end > Inode.maxFileSize then (.fail .E_FILE_TOO_LARGE, s)
      else rest s inode_id data offset write_end

/-! ### Allocator (revise002/filesystem/src/Allocator.cpp) -/

/-- Write one block of the disk, giving both the pointer view and the
byte view of its new content. -/
def Disk.writeBlockViews (d : Disk) (b : Nat) (pf bf : Nat → Nat) : Disk :=
  { ptr := fun x i => if x = b then pf i else d.ptr x i,
    byte := fun x j => if x = b then bf j else d.byte x j }

/-- The in-memory allocator state after `Allocator::load()` (so
`loaded_` and `refcount_enabled_` are true): superblock geometry and
counters, the data-block bitmap (one `Bool` per data block, index
relative to `data_block_start`), the refcount table and the disk. -/
structure AllocState where
  data_block_start : Nat
  data_block_count : Nat
  free_blocks : Nat
  used_blocks : Nat
  bitmap : List Bool
  refcount : List Nat
  disk : Disk

/-- `Allocator::isValidDataBlock`. -/
def AllocState.isValidDataBlock (s : AllocState) (n : Nat) : Bool :=
  s.data_block_start ≤ n ∧ n < s.data_block_start + s.data_block_count

/-- `Allocator::getBlockRef`: 0 for an out-of-range block or an index
beyond the refcount table, otherwise the table entry. -/
def AllocState.getBlockRef (s : AllocState) (n : Nat) : Nat :=
  if s.isValidDataBlock n = false then 0
  else if s.refcount.length ≤ n - s.data_block_start then 0
  else s.refcount.getD (n - s.data_block_start) 0

/-- `Bitmap::findFirstFree` on the data-block bitmap: the lowest index
below `data_block_count` whose bit is clear. -/
def AllocState.findFreeBlock (s : AllocState) : Option Nat :=
  (List.range s.data_block_count).find? fun i => !(s.bitmap.getD i false)

/-- `Allocator::allocBlock`: first-fit scan, set the bit, set the
refcount entry to 1, zero-fill the block, bump the counters. -/
def AllocState.allocBlock (s : AllocState) : FsRes Nat × AllocState :=
  if s.free_blocks = 0 then (.fail .E_NO_SPACE, s)
  else
    match s.findFreeBlock with
    | none => (.fail .E_NO_SPACE, s)
    | some idx =>
        (.ok (s.data_block_start + idx),
         { s with
             bitmap := s.bitmap.set idx true,
             refcount := if idx < s.refcount.length then s.refcount.set idx 1
                         else s.refcount,
             disk := s.disk.writeBlockViews (s.data_block_start + idx)
               (fun _ => 0) (fun _ => 0),
             free_blocks := s.free_blocks - 1,
             used_blocks := s.used_blocks + 1 })

/-- `Allocator::freeBlock` (Allocator.cpp lines 460-494): reject a block
that is out of range or whose bitmap bit is clear; with a refcount above
1 only decrement; otherwise zero the refcount, clear the bit and update
the counters. -/
def AllocState.freeBlock (s : AllocState) (n : Nat) : ErrorCode × AllocState :=
  if s.isValidDataBlock n = false then (.E_INVALID_PARAM, s)
  else if s.bitmap.getD (n - s.data_block_start) false = false then
    (.E_INVALID_PARAM, s)
  else if n - s.data_block_start < s.refcount.length then
    if 1 < s.refcount.getD (n - s.data_block_start) 0 then
      let rc := s.refcount.getD (n - s.data_block_start) 0
      (.OK, { s with refcount := s.refcount.set (n - s.data_block_start) (rc - 1) })
    else
      (.OK, { s with
          refcount := s.refcount.set (n - s.data_block_start) 0,
          bitmap := s.bitmap.set (n - s.data_block_start) false,
          used_blocks := s.used_blocks - 1,
          free_blocks := s.free_blocks + 1 })
  else
    (.OK, { s with
        bitmap := s.bitmap.set (n - s.data_block_start) false,
        used_blocks := s.used_blocks - 1,
        free_blocks := s.free_blocks + 1 })

/-- `Allocator::decBlockRef`: fail on an out-of-range block or a zero
refcount; decrement, and when the count reaches 0 clear the bitmap bit
and update the counters (the block is freed). -/
def AllocState.decBlockRef (s : AllocState) (n : Nat) : FsRes Nat × AllocState :=
  if s.isValidDataBlock n = false then (.fail .E_INVALID_PARAM, s)
  else if s.refcount.length ≤ n - s.data_block_start then
    (.fail .E_INVALID_PARAM, s)
  else if s.refcount.getD (n - s.data_block_start) 0 = 0 then
    (.fail .E_INTERNAL, s)
  else if s.refcount.getD (n - s.data_block_start) 0 - 1 = 0 then
    (.ok 0, { s with
        refcount := s.refcount.set (n - s.data_block_start) 0,
        bitmap := s.bitmap.set (n - s.data_block_start) false,
        used_blocks := s.used_blocks - 1,
        free_blocks := s.free_blocks + 1 })
  else
    let rc := s.refcount.getD (n - s.data_block_start) 0
    (.ok (rc - 1),
     { s with refcount := s.refcount.set (n - s.data_block_start) (rc - 1) })

/-! ### SnapshotManager (revise002/filesystem/src/Snapshot.cpp) -/

/-- `SnapshotInfo` (Snapshot.h). -/
structure SnapshotInfo where
  name : String
  create_time : Int
  root_inode : Nat
  block_count : Nat
  valid : Bool
  deriving DecidableEq, Repr

/-- `SnapshotManager::MAX_SNAPSHOTS` (Snapshot.h line 110) -- the
class-scope constant, 15, which shadows the unused `MAX_SNAPSHOTS = 16`
of FSTypes.h. -/
def MAX_SNAPSHOTS : Nat := 15

/-- `MAX_SNAPSHOT_NAME_LEN` (FSTypes.h). -/
def MAX_SNAPSHOT_NAME_LEN : Nat := 32

/-- `SnapshotManager::findSnapshotIndex`: index of the first snapshot
with the given name that is marked valid. -/
def findSnapshotIndex (snapshots : List SnapshotInfo) (name : String) :
    Option Nat :=
  snapshots.findIdx? fun s => decide (s.name = name) && s.valid

/-- `SnapshotManager::needsCOW` (Snapshot.cpp lines 435-441): false with
no snapshots, otherwise true iff the block's refcount exceeds 1. -/
def needsCOW (snapshots : List SnapshotInfo) (alloc : AllocState)
    (block_no : Nat) : Bool :=
  if snapshots.isEmpty then false
  else 1 < alloc.getBlockRef block_no

/-- `SnapshotManager::performCOW` (Snapshot.cpp lines 443-477): no-op
when COW is not needed; otherwise allocate a fresh block, copy the old
block's contents into it, decrement the old block's refcount (the
result of `decBlockRef` is ignored, as in the source) and return the
new block number. -/
def performCOW (snapshots : List SnapshotInfo) (alloc : AllocState)
    (block_no : Nat) : FsRes Nat × AllocState :=
  if needsCOW snapshots alloc block_no = false then (.ok block_no, alloc)
  else
    match alloc.allocBlock with
    | (.fail e, a1) => (.fail e, a1)
    | (.ok new_block, a1) =>
        let a2 : AllocState := { a1 with
          disk := a1.disk.writeBlockViews new_block (a1.disk.ptr block_no)
            (a1.disk.byte block_no) }
        (.ok new_block, (a2.decBlockRef block_no).2)

/-- The snapshot-manager state the early checks of
`SnapshotManager::createSnapshot` read. -/
structure SnapMgr where
  loaded : Bool
  snapshots : List SnapshotInfo
  deriving DecidableEq, Repr

/-- `SnapshotManager::createSnapshot` (Snapshot.cpp lines 229-297) up to
its capacity check, translated exactly; the deep clone of the inode tree
and the list append/persist that follow a passed check are abstracted as
the continuation `rest`, so the early-return theorems hold for every
behaviour of the remainder. -/
def createSnapshot (rest : SnapMgr → String → ErrorCode × SnapMgr)
    (sm : SnapMgr) (name : String) : ErrorCode × SnapMgr :=
  if sm.loaded = false then (.E_INVALID_PARAM, sm)
  else if name.isEmpty ∨ name.length > MAX_SNAPSHOT_NAME_LEN - 1 then
    (.E_NAME_TOO_LONG, sm)
  else if (findSnapshotIndex sm.snapshots name).isSome then
    (.E_SNAPSHOT_EXISTS, sm)
  else if sm.snapshots.length ≥ MAX_SNAPSHOTS then (.E_MAX_SNAPSHOTS, sm)
  else rest sm name

/-! ### Concrete states used by counterexamples and witnesses -/

/-- A disk whose pointer blocks are all `INVALID_BLOCK` and whose data
bytes are all zero. -/
def zeroDisk : Disk :=
  { ptr := fun _ _ => INVALID_BLOCK, byte := fun _ _ => 0 }

/-- An empty directory inode (as `mkdir` initialises one, with its single
data block elided). -/
def dirInode : Inode :=
  { type := .DIRECTORY, size := 128, link_count := 2, ref_count := 1,
    create_time := 0, modify_time := 0, access_time := 0,
    direct_blocks := List.replicate 12 INVALID_BLOCK,
    single_indirect := INVALID_BLOCK, double_indirect := INVALID_BLOCK,
    block_count := 0 }

/-- An empty regular-file inode (as `createFile` initialises one). -/
def regInode : Inode :=
  { type := .REGULAR, size := 0, link_count := 1, ref_count := 1,
    create_time := 0, modify_time := 0, access_time := 0,
    direct_blocks := List.replicate 12 INVALID_BLOCK,
    single_indirect := INVALID_BLOCK, double_indirect := INVALID_BLOCK,
    block_count := 0 }

/-- A file-engine state where every inode slot holds `dirInode`. -/
def dirSt : FileSt := { inodes := fun _ => dirInode, disk := zeroDisk }

/-- A file-engine state where every inode slot holds `regInode`. -/
def regSt : FileSt := { inodes := fun _ => regInode, disk := zeroDisk }

/-- A continuation standing in for the write loop of
`Directory::writeFileByInode` in closed counterexamples; it reports
`E_IO`, so any success observed must come from an early return. -/
def failRest : FileSt → Nat → List Nat → Nat → Nat → FsRes Nat × FileSt :=
  fun s _ _ _ _ => (.fail ErrorCode.E_IO, s)

/-- A small loaded allocator: 4 data blocks starting at absolute block
10; blocks 10 (refcount 2) and 11 (refcount 1) are allocated. -/
def a0 : AllocState :=
  { data_block_start := 10, data_block_count := 4,
    free_blocks := 2, used_blocks := 2,
    bitmap := [true, true, false, false],
    refcount := [2, 1, 0, 0],
    disk := zeroDisk }

/-- A valid snapshot record used in witnesses. -/
def snap1 : SnapshotInfo :=
  { name := "s1", create_time := 0, root_inode := 5, block_count := 0,
    valid := true }

/-- A snapshot manager holding 15 copies of `snap1` (the capacity bound). -/
def smFull : SnapMgr :=
  { loaded := true, snapshots := List.replicate 15 snap1 }

/-! ### Block cache (Cache.h / Cache.cpp) -/

/-- `CacheBlock` (Cache.h): one cached block with its dirty flag.  The
1024 data bytes are a `List Nat`. -/
structure CacheBlk where
  block_no : Nat
  data : List Nat
  dirty : Bool
deriving DecidableEq

/-- `LRUCache`: the list holds the cached blocks most-recently-used
first (`lru_list_`); `cache_map_` is the key index over the same
blocks, so a key occurs at most once. -/
structure LRU where
  capacity : Nat
  entries : List CacheBlk
deriving DecidableEq

/-- `LRUCache::evictLRU`: drop the least-recently-used block (the list
tail); a no-op on an empty cache. -/
def LRU.evictLRU (l : LRU) : LRU :=
  { l with entries := l.entries.dropLast }

/-- The `while (lru_list_.size() >= capacity_) evictLRU()` loop of
`LRUCache::put`, with explicit fuel (the loop removes one block per
iteration, so `entries.length` steps always suffice). -/
def LRU.evictWhileFull : Nat → LRU → LRU
  | 0, l => l
  | fuel + 1, l =>
      if l.capacity ≤ l.entries.length then LRU.evictWhileFull fuel l.evictLRU
      else l

/-- The `while (lru_list_.size() > capacity_) evictLRU()` loop of
`LRUCache::setCapacity`, with explicit fuel. -/
def LRU.shrinkWhileOver : Nat → LRU → LRU
  | 0, l => l
  | fuel + 1, l =>
      if l.capacity < l.entries.length then LRU.shrinkWhileOver fuel l.evictLRU
      else l

/-- `LRUCache::put`: on a hit overwrite the data, accumulate the dirty
flag and move the block to the front (removal by key stands in for the
splice, since a key occurs at most once); on a miss evict while full
and push a fresh block to the front. -/
def LRU.put (l : LRU) (bno : Nat) (data : List Nat) (dirty : Bool) : LRU :=
  match l.entries.find? (fun e => e.block_no == bno) with
  | some e =>
      { l with entries := { e with data := data, dirty := e.dirty || dirty } :: l.entries.filter (fun x => x.block_no != bno) }
  | none =>
      let l2 := LRU.evictWhileFull l.entries.length l
      { l2 with entries := { block_no := bno, data := data, dirty := dirty } :: l2.entries }

/-- `LRUCache::get`: on a hit return the data and move the block to the
front; on a miss return nothing and leave the cache unchanged. -/
def LRU.get (l : LRU) (bno : Nat) : Option (List Nat) × LRU :=
  match l.entries.find? (fun e => e.block_no == bno) with
  | none => (none, l)
  | some e =>
      (some e.data, { l with entries := e :: l.entries.filter (fun x => x.block_no != bno) })

/-- `LRUCache::getDirtyBlocks`: the `(block_no, data)` pairs of the
dirty blocks, in list order. -/
def LRU.getDirtyBlocks (l : LRU) : List (Nat × List Nat) :=
  (l.entries.filter (fun e => e.dirty)).map (fun e => (e.block_no, e.data))

/-- `LRUCache::clearDirty`: clear the dirty flag of the block with this
key, if cached. -/
def LRU.clearDirty (l : LRU) (bno : Nat) : LRU :=
  { l with entries := l.entries.map (fun e => if e.block_no == bno then { e with dirty := false } else e) }

/-- `LRUCache::invalidate`: drop the block with this key, if cached. -/
def LRU.invalidate (l : LRU) (bno : Nat) : LRU :=
  { l with entries := l.entries.filter (fun x => x.block_no != bno) }

/-- `LRUCache::setCapacity`: install the new capacity (0 is promoted to
1, as in the constructor) and evict down to it. -/
def LRU.setCapacity (l : LRU) (cap : Nat) : LRU :=
  LRU.shrinkWhileOver l.entries.length { l with capacity := if 0 < cap then cap else 1 }

/-- `CachedDisk` (Cache.h): the LRU cache over the disk image, with the
enable and write-through flags.  The disk image (`disk_`) is a total
map from block number to block contents, so its reads and writes never
fail. -/
structure CDisk where
  cache : LRU
  disk : Nat → List Nat
  cache_enabled : Bool
  write_through : Bool

/-- `CachedDisk::readBlock` (Cache.cpp lines 313-337): serve a hit from
the cache; on a miss read the disk and, when the cache is enabled,
insert the block clean. -/
def CDisk.readBlock (c : CDisk) (bno : Nat) : List Nat × CDisk :=
  if c.cache_enabled then
    match c.cache.get bno with
    | (some d, cc) => (d, { c with cache := cc })
    | (none, _) => (c.disk bno, { c with cache := c.cache.put bno (c.disk bno) false })
  else (c.disk bno, c)

/-- `CachedDisk::writeBlock` (Cache.cpp lines 339-367): put the block in
the cache (dirty unless writing through) when enabled; write the disk
when writing through or when the cache is disabled, then clear the
dirty flag when enabled. -/
def CDisk.writeBlock (c : CDisk) (bno : Nat) (data : List Nat) (wt : Bool) : CDisk :=
  let do_wt := wt || c.write_through
  let c1 := if c.cache_enabled then { c with cache := c.cache.put bno data (!do_wt) } else c
  if do_wt || !c.cache_enabled then
    let c2 := { c1 with disk := fun n => if n = bno then data else c1.disk n }
    if c2.cache_enabled then { c2 with cache := c2.cache.clearDirty bno } else c2
  else c1

/-- The write-back loop of `CachedDisk::flush` (Cache.cpp lines
400-420): write each listed dirty block to disk and clear its dirty
flag. -/
def flushLoop : List (Nat × List Nat) → CDisk → CDisk
  | [], c => c
  | (bno, data) :: rest, c =>
      flushLoop rest { c with disk := fun n => if n = bno then data else c.disk n, cache := c.cache.clearDirty bno }

/-- `CachedDisk::flush`: snapshot the dirty blocks and write them back.
With the total disk image every write and the final `sync` succeed, so
the call always returns `OK`. -/
def CDisk.flush (c : CDisk) : CDisk :=
  flushLoop c.cache.getDirtyBlocks c

/-- `CachedDisk::invalidate`. -/
def CDisk.invalidate (c : CDisk) (bno : Nat) : CDisk :=
  { c with cache := c.cache.invalidate bno }

/-- `CachedDisk::clearCache`: flush, then clear the cache. -/
def CDisk.clearCache (c : CDisk) : CDisk :=
  let c1 := c.flush
  { c1 with cache := { c1.cache with entries := [] } }

/-- `CachedDisk::setCacheCapacity`: flush, then resize the cache. -/
def CDisk.setCacheCapacity (c : CDisk) (cap : Nat) : CDisk :=
  let c1 := c.flush
  { c1 with cache := c1.cache.setCapacity cap }

/-- The `CachedDisk` entry points a client can call between flushes
(`FileSystem::setCacheEnabled` and `setWriteThrough` forward to the
field setters in Cache.h lines 298 and 305). -/
inductive CacheOp where
  | write (bno : Nat) (data : List Nat) (wt : Bool)
  | readOp (bno : Nat)
  | flushOp
  | invalidateOp (bno : Nat)
  | clearCacheOp
  | setCapacityOp (cap : Nat)
  | setEnabledOp (b : Bool)
  | setWriteThroughOp (b : Bool)
deriving DecidableEq

/-- Run one `CachedDisk` call. -/
def runOp (c : CDisk) : CacheOp → CDisk
  | .write bno data wt => c.writeBlock bno data wt
  | .readOp bno => (c.readBlock bno).2
  | .flushOp => c.flush
  | .invalidateOp bno => c.invalidate bno
  | .clearCacheOp => c.clearCache
  | .setCapacityOp cap => c.setCacheCapacity cap
  | .setEnabledOp b => { c with cache_enabled := b }
  | .setWriteThroughOp b => { c with write_through := b }

/-- Run a sequence of `CachedDisk` calls. -/
def runOps (c : CDisk) : List CacheOp → CDisk
  | [] => c
  | op :: rest => runOps (runOp c op) rest

/-- A freshly constructed `CachedDisk` over a zeroed disk image:
capacity 8, cache enabled, write-back mode (the constructor defaults,
Cache.cpp lines 296-302). -/
def initCDisk : CDisk :=
  { cache := { capacity := 8, entries := [] }, disk := fun _ => [],
    cache_enabled := true, write_through := false }

/-- No cached block is marked dirty. -/
def noDirty (c : CDisk) : Prop :=
  ∀ e ∈ c.cache.entries, e.dirty = false

/-- Every cached block's on-disk content equals its cached content. -/
def cacheConsistent (c : CDisk) : Prop :=
  ∀ e ∈ c.cache.entries, c.disk e.block_no = e.data

/-- Every clean cached block's on-disk content equals its cached
content (the part of `cacheConsistent` that survives write-back
writes). -/
def cleanAgree (c : CDisk) : Prop :=
  ∀ e ∈ c.cache.entries, e.dirty = false → c.disk e.block_no = e.data

/-- Cache keys are pairwise distinct (the `cache_map_` invariant). -/
def keysNodup (c : CDisk) : Prop :=
  (c.cache.entries.map CacheBlk.block_no).Nodup

/-! ### Path handling (Directory.cpp) -/

/-- `ROOT_INODE` (FSTypes.h line 38). -/
def ROOT_INODE : Nat := 0

/-- The `while (result.size() > 1 && result.back() == '/') pop_back()`
loop of `Directory::normalizePath`, acting on the reversed string:
drop leading slashes while at least one character remains below. -/
def dropSlashesRev : List Char → List Char
  | [] => []
  | c :: rest => if c = '/' ∧ rest ≠ [] then dropSlashesRev rest else c :: rest

/-- The duplicate-slash pass of `Directory::normalizePath`: copy every
character, skipping a '/' whose predecessor was a '/' (the boolean is
`last_was_slash`). -/
def collapseAux : Bool → List Char → List Char
  | _, [] => []
  | lastSlash, c :: rest =>
      if c = '/' then
        if lastSlash then collapseAux true rest
        else c :: collapseAux true rest
      else c :: collapseAux false rest

/-- `Directory::normalizePath` (Directory.cpp lines 110-140): empty
becomes "/", a missing leading '/' is prepended, trailing slashes are
stripped (keeping at least one character), duplicate slashes are
collapsed. -/
def normalizePath (path : List Char) : List Char :=
  if path = [] then ['/']
  else
    let r1 := if path.head? = some '/' then path else '/' :: path
    let r2 := (dropSlashesRev r1.reverse).reverse
    collapseAux false r2

/-- One `std::getline(iss, token, '/')` pass: accumulate the current
token (reversed) and emit it at each delimiter and at the end. -/
def tokenizeAux (cur : List Char) : List Char → List (List Char)
  | [] => [cur.reverse]
  | c :: rest =>
      if c = '/' then cur.reverse :: tokenizeAux [] rest
      else tokenizeAux (c :: cur) rest

/-- The `getline` tokenization of `Directory::splitPath`: an empty
stream yields no token, and a trailing delimiter yields no trailing
empty token (`getline` fails at end-of-stream). -/
def tokenize (s : List Char) : List (List Char) :=
  if s = [] then []
  else if s.getLast? = some '/' then (tokenizeAux [] s).dropLast
  else tokenizeAux [] s

/-- The component loop of `Directory::splitPath`: skip empty tokens and
".", pop the last accumulated component on ".." (a no-op when none is
accumulated), append any other token. -/
def processTokens : List (List Char) → List (List Char) → List (List Char)
  | acc, [] => acc
  | acc, t :: rest =>
      if t ≠ [] ∧ t ≠ ['.'] then
        if t = ['.', '.'] then processTokens acc.dropLast rest
        else processTokens (acc ++ [t]) rest
      else processTokens acc rest

/-- `Directory::splitPath` (Directory.cpp lines 84-108): normalize,
return no components for "/" (or an empty normal form), otherwise
tokenize and process the components. -/
def splitPath (path : List Char) : List (List Char) :=
  if normalizePath path = [] ∨ normalizePath path = ['/'] then []
  else processTokens [] (tokenize (normalizePath path))

/-- `Directory::isValidFilename` (Directory.cpp lines 155-167): not
empty, at most `MAX_FILENAME_LEN` characters, not "." or "..", no '/'
and no NUL character. -/
def isValidFilename (name : List Char) : Bool :=
  if name = [] then false
  else if MAX_FILENAME_LEN < name.length then false
  else if name = ['.'] ∨ name = ['.', '.'] then false
  else name.all (fun c => ¬(c = '/' ∨ c = Char.ofNat 0))

/-- `Directory::isValidPath` (Directory.cpp lines 140-153): reject the
empty path and a path not starting with '/', then require every
component to be a valid filename. -/
def isValidPath (path : List Char) : Bool :=
  if path = [] then false
  else if path.head? ≠ some '/' then false
  else (splitPath path).all isValidFilename

/-- The component-walking loop of `Directory::resolvePath`, with the
inode reads and directory lookups abstracted as functions. -/
def resolveLoop (readInode : Nat → FsRes Inode)
    (lookupInternal : Nat → List Char → FsRes Nat) :
    Nat → List (List Char) → FsRes Nat
  | current, [] => .ok current
  | current, name :: rest =>
      match readInode current with
      | .fail e => .fail e
      | .ok ino =>
          if ino.isDirectory then
            match lookupInternal current name with
            | .fail _ => .fail .E_NOT_FOUND
            | .ok next => resolveLoop readInode lookupInternal next rest
          else .fail .E_NOT_DIR

/-- `Directory::resolvePath` (Directory.cpp lines 174-209): normalize,
resolve "/" (or no components) to the root inode, else walk the
components from the root. -/
def resolvePath (readInode : Nat → FsRes Inode)
    (lookupInternal : Nat → List Char → FsRes Nat)
    (path : List Char) : FsRes Nat :=
  if normalizePath path = ['/'] then .ok ROOT_INODE
  else if splitPath (normalizePath path) = [] then .ok ROOT_INODE
  else resolveLoop readInode lookupInternal ROOT_INODE
    (splitPath (normalizePath path))

/-- No two consecutive characters of the list are both '/'. -/
def noDoubleSlash : List Char → Prop
  | [] => True
  | a :: rest => (a = '/' → rest.head? ≠ some '/') ∧ noDoubleSlash rest

/-! ### Theorems -/

/-- `getFileBlock` agrees with the specification-side lookup
(helper shared by the lookup inversion lemma and the C1 theorem). -/
theorem getFileBlock_spec_aux (d : Disk) (inode : Inode) (k : Nat) :
    getFileBlock d inode k = specGetFileBlock d inode k := by
  unfold getFileBlock specGetFileBlock getIndirectBlock specFollow
  simp only [NUM_DIRECT_BLOCKS, PTRS_PER_BLOCK]
  by_cases h1 : k < 12
  · simp [h1]
  · by_cases h2 : k < 268
    · have hk : k - 12 < 256 := by omega
      have hnb : ¬ (256 ≤ k - 12) := by omega
      by_cases hs : inode.single_indirect = INVALID_BLOCK
      · simp [h1, h2, hk, hs]
      · simp [h1, h2, hk, hnb, hs]
    · by_cases h3 : k < 268 + 65536
      · have hnd : ¬ (k - 12 < 256) := by omega
        have hd : k - 12 - 256 < 256 * 256 := by omega
        have hd2 : k - 268 < 65536 := by omega
        have he : k - 12 - 256 = k - 268 := by omega
        have hq : ¬ (256 ≤ (k - 268) / 256) := by
          have : (k - 268) / 256 < 256 := by omega
          omega
        have hr : ¬ (256 ≤ (k - 268) % 256) := by
          have : (k - 268) % 256 < 256 := by omega
          omega
        have h3' : k < 65804 := by omega
        by_cases hdd : inode.double_indirect = INVALID_BLOCK
        · simp [h1, h2, h3, h3', hnd, hd, hd2, he, hdd]
        · simp only [if_neg h1, if_neg h2, if_neg hnd, he, if_pos hd2,
            if_pos (he ▸ hd), if_neg hdd, hdd, false_or, if_neg hq]
          by_cases hp1 : d.ptr inode.double_indirect ((k - 268) / 256) =
              INVALID_BLOCK
          · simp [hp1, h3']
          · simp only [if_neg hp1, if_pos h3']
            by_cases hl1 : d.ptr inode.double_indirect ((k - 268) / 256) =
                INVALID_BLOCK
            · exact absurd hl1 hp1
            · simp [hl1, hr]
      · have hnd : ¬ (k - 12 < 256) := by omega
        have hd : ¬ (k - 12 - 256 < 256 * 256) := by omega
        simp [h1, h2, h3, hnd, hd]

/-- C1: `getFileBlock` returns the k-th direct pointer when `k < 12`, the
pointer at slot `k-12` of the single-indirect block for `12 ≤ k < 268`,
the pointer at slot `(k-268)/256` of the double-indirect block followed by
slot `(k-268)%256` for `268 ≤ k < 268+65536`, `E_FILE_TOO_LARGE` beyond,
and `E_NOT_FOUND` whenever a followed pointer is `INVALID_BLOCK`. -/
theorem getFileBlock_eq_spec (d : Disk) (inode : Inode) (k : Nat) :
    getFileBlock d inode k = specGetFileBlock d inode k :=
  getFileBlock_spec_aux d inode k

/-- C10: a `write_file` call with an empty data buffer returns success
with a written count of 0 and leaves the entire state -- in particular
the file's inode with its size, block pointers, block count and
timestamps -- unchanged, for every offset and every behaviour of the
write loop. -/
theorem writeFile_empty_noop
    (rest : FileSt → Nat → List Nat → Nat → Nat → FsRes Nat × FileSt)
    (s : FileSt) (inode_id offset : Nat) :
    writeFileByInode rest s inode_id [] offset = (.ok 0, s) := rfl

/-- C9 counterexample: `write_file` on a directory inode with an empty
data buffer returns success 0 instead of failing with `E_IS_DIR` (the
empty-buffer early return precedes the type check); `failRest` reports
`E_IO`, so the observed success comes from the early return alone. -/
theorem writeFile_dir_empty_ok :
    (writeFileByInode failRest dirSt 3 [] 0).1 = .ok 0 ∧
    (dirSt.inodes 3).isDirectory = true ∧
    (FsRes.ok 0 : FsRes Nat) ≠ .fail .E_IS_DIR := by
  refine ⟨rfl, by decide, by decide⟩

/-- C9 (amended): for a directory inode, `read_file` fails with `E_IS_DIR`
and changes no state; `write_file` with a *non-empty* buffer fails with
`E_IS_DIR` and changes no state (an empty buffer returns success 0
first); and for a regular file, a read at an offset at or past the file
size succeeds with an empty byte vector. -/
theorem readWrite_isdir_and_eof (s : FileSt) (inode_id offset length0 : Nat)
    (now : Int) :
    ((s.inodes inode_id).isDirectory = true →
      readFileByInode s inode_id offset length0 now = (.fail .E_IS_DIR, s)) ∧
    (∀ (rest : FileSt → Nat → List Nat → Nat → Nat → FsRes Nat × FileSt)
        (data : List Nat), (s.inodes inode_id).isDirectory = true →
      data ≠ [] →
      writeFileByInode rest s inode_id data offset = (.fail .E_IS_DIR, s)) ∧
    ((s.inodes inode_id).isRegularFile = true →
      offset ≥ (s.inodes inode_id).size →
      readFileByInode s inode_id offset length0 now = (.ok [], s)) := by
  refine ⟨fun hdir => ?_, fun rest data hdir hne => ?_, fun hreg hoff => ?_⟩
  · have hnr : ¬ (s.inodes inode_id).isRegularFile := by
      simp [Inode.isDirectory] at hdir
      simp [Inode.isRegularFile, hdir]
    simp [readFileByInode, hnr]
  · have hnr : ¬ (s.inodes inode_id).isRegularFile := by
      simp [Inode.isDirectory] at hdir
      simp [Inode.isRegularFile, hdir]
    simp [writeFileByInode, hne, hnr]
  · simp [readFileByInode, hreg, hoff]

/-- C9 witness: the amended theorem applied to the all-directories state
(for the `E_IS_DIR` parts) and the all-empty-regular-files state (for the
read-past-end part). -/
theorem readWrite_isdir_and_eof_witness :
    readFileByInode dirSt 3 0 5 0 = (.fail .E_IS_DIR, dirSt) ∧
    writeFileByInode failRest dirSt 3 [7] 0 = (.fail .E_IS_DIR, dirSt) ∧
    readFileByInode regSt 4 2 5 0 = (.ok [], regSt) :=
  ⟨(readWrite_isdir_and_eof dirSt 3 0 5 0).1 (by decide),
   (readWrite_isdir_and_eof dirSt 3 0 5 0).2.1 failRest [7] (by decide)
     (by decide),
   (readWrite_isdir_and_eof regSt 4 2 5 0).2.2 (by decide) (by decide)⟩

/-- C3 counterexample: the maximum file size computed by the code is
`(12 + 256 + 65536) * 1024 = 67383296` bytes, not the `67383808` the
claim states; and a `write_file` call whose end offset exceeds the
maximum but whose data buffer is empty returns success 0, not
`E_FILE_TOO_LARGE` (the empty-buffer early return precedes the size
check). -/
theorem writeFile_past_max_empty_ok :
    Inode.maxFileSize ≠ 67383808 ∧ Inode.maxFileSize = 67383296 ∧
    67383809 + ([] : List Nat).length > Inode.maxFileSize ∧
    (writeFileByInode failRest regSt 1 [] 67383809).1 = .ok 0 ∧
    (FsRes.ok 0 : FsRes Nat) ≠ .fail .E_FILE_TOO_LARGE := by
  refine ⟨by decide, by decide, by decide, rfl, by decide⟩

/-- C3 (amended): the maximum file size is
`(12 + 256 + 65536) * 1024 = 67383296` bytes, and every `write_file` call
with a *non-empty* buffer whose 32-bit end offset
(`offset + length mod 2^32`) exceeds it fails with `E_FILE_TOO_LARGE` and
writes nothing (the state is unchanged), for every behaviour of the write
loop. -/
theorem writeFile_too_large (rest : FileSt → Nat → List Nat → Nat → Nat →
      FsRes Nat × FileSt) (s : FileSt) (inode_id offset : Nat)
    (data : List Nat) (hne : data ≠ [])
    (hreg : (s.inodes inode_id).isRegularFile = true)
    (hbig : (offset + data.length) % 2 ^ 32 > Inode.maxFileSize) :
    Inode.maxFileSize = 67383296 ∧
    writeFileByInode rest s inode_id data offset =
      (.fail .E_FILE_TOO_LARGE, s) := by
  refine ⟨by decide, ?_⟩
  simp only [writeFileByInode]
  rw [if_neg hne,
    if_neg (show ¬ ¬ (s.inodes inode_id).isRegularFile = true by simp [hreg]),
    if_pos hbig]

/-- C3 witness: a one-byte write at offset 67383296 fails with
`E_FILE_TOO_LARGE` and leaves the state unchanged. -/
theorem writeFile_too_large_witness :
    Inode.maxFileSize = 67383296 ∧
    writeFileByInode failRest regSt 1 [7] 67383296 =
      (.fail .E_FILE_TOO_LARGE, regSt) :=
  writeFile_too_large failRest regSt 1 67383296 [7] (by decide) (by decide)
    (by decide)

/-- C5: `free_block` on an allocated data block succeeds: with a
refcount above 1 it only decrements the count (bitmap and counters
untouched); with refcount 1 it zeroes the count, clears the bitmap bit,
decrements `used_blocks` (and increments `free_blocks`).  On a block
that is out of range or whose bitmap bit is clear it fails with
`E_INVALID_PARAM` and changes nothing. -/
theorem freeBlock_spec (s : AllocState) (n : Nat)
    (hwr : s.refcount.length = s.data_block_count) :
    (s.isValidDataBlock n = true →
      s.bitmap.getD (n - s.data_block_start) false = true →
      1 < s.refcount.getD (n - s.data_block_start) 0 →
      s.freeBlock n = (.OK, { s with
        refcount := s.refcount.set (n - s.data_block_start)
          (s.refcount.getD (n - s.data_block_start) 0 - 1) })) ∧
    (s.isValidDataBlock n = true →
      s.bitmap.getD (n - s.data_block_start) false = true →
      s.refcount.getD (n - s.data_block_start) 0 = 1 →
      s.freeBlock n = (.OK, { s with
        refcount := s.refcount.set (n - s.data_block_start) 0,
        bitmap := s.bitmap.set (n - s.data_block_start) false,
        used_blocks := s.used_blocks - 1,
        free_blocks := s.free_blocks + 1 })) ∧
    (s.isValidDataBlock n = false → s.freeBlock n = (.E_INVALID_PARAM, s)) ∧
    (s.bitmap.getD (n - s.data_block_start) false = false →
      s.freeBlock n = (.E_INVALID_PARAM, s)) := by
  refine ⟨fun hv hbit hrc => ?_, fun hv hbit hrc => ?_, fun hv => ?_,
    fun hbit => ?_⟩
  · have hrange : s.data_block_start ≤ n ∧
        n < s.data_block_start + s.data_block_count := by
      simpa [AllocState.isValidDataBlock] using hv
    unfold AllocState.freeBlock
    rw [if_neg (by simp [hv]), if_neg (by rw [hbit]; decide),
      if_pos (show n - s.data_block_start < s.refcount.length by omega),
      if_pos hrc]
  · have hrange : s.data_block_start ≤ n ∧
        n < s.data_block_start + s.data_block_count := by
      simpa [AllocState.isValidDataBlock] using hv
    unfold AllocState.freeBlock
    rw [if_neg (by simp [hv]), if_neg (by rw [hbit]; decide),
      if_pos (show n - s.data_block_start < s.refcount.length by omega),
      if_neg (by omega)]
  · unfold AllocState.freeBlock
    rw [if_pos hv]
  · unfold AllocState.freeBlock
    by_cases hv : s.isValidDataBlock n = false
    · rw [if_pos hv]
    · rw [if_neg hv, if_pos hbit]

/-- C5 witness: in `a0`, freeing block 10 (refcount 2) only decrements
the refcount, freeing block 11 (refcount 1) clears its bit and the
counter, and freeing the unallocated block 12 fails. -/
theorem freeBlock_spec_witness :
    a0.freeBlock 10 = (.OK, { a0 with refcount := [1, 1, 0, 0] }) ∧
    a0.freeBlock 11 = (.OK, { a0 with refcount := [2, 0, 0, 0], bitmap := [true, false, false, false], used_blocks := 1, free_blocks := 3 }) ∧
    a0.freeBlock 12 = (.E_INVALID_PARAM, a0) := by
  refine ⟨?_, ?_, ?_⟩
  · have h := (freeBlock_spec a0 10 (by decide)).1 (by decide) (by decide)
      (by decide)
    rw [h]
    rfl
  · have h := (freeBlock_spec a0 11 (by decide)).2.1 (by decide) (by decide)
      (by decide)
    rw [h]
    rfl
  · exact (freeBlock_spec a0 12 (by decide)).2.2.2 (by decide)

/-- C6: with 15 snapshots present, `create_snapshot` with a valid,
fresh name returns `E_MAX_SNAPSHOTS` and leaves the snapshot list (and
the whole manager state) unchanged, whatever the clone-and-persist
remainder would do. -/
theorem createSnapshot_at_capacity
    (rest : SnapMgr → String → ErrorCode × SnapMgr) (sm : SnapMgr)
    (name : String) (hload : sm.loaded = true)
    (hne : name.isEmpty = false)
    (hlen : name.length ≤ MAX_SNAPSHOT_NAME_LEN - 1)
    (hfresh : findSnapshotIndex sm.snapshots name = none)
    (hfull : sm.snapshots.length = MAX_SNAPSHOTS) :
    createSnapshot rest sm name = (.E_MAX_SNAPSHOTS, sm) := by
  unfold createSnapshot
  rw [if_neg (by simp [hload]), if_neg (by simp [hne]; omega),
    if_neg (by simp [hfresh]), if_pos (by omega)]

/-- C6 witness: the 16th snapshot creation on a full manager fails with
`E_MAX_SNAPSHOTS` and adds nothing. -/
theorem createSnapshot_at_capacity_witness :
    createSnapshot (fun sm _ => (.OK, sm)) smFull "t" =
      (.E_MAX_SNAPSHOTS, smFull) :=
  createSnapshot_at_capacity (fun sm _ => (.OK, sm)) smFull "t" (by decide)
    (by decide) (by decide) (by decide) (by decide)

/-- C4: `needs_cow(b)` holds exactly when at least one snapshot exists
and the reference count of `b` exceeds 1; and when it holds (for an
actually allocated `b`, with space available and `idx` the first-fit
free slot), `perform_cow(b)` returns a fresh data block
`n = data_block_start + idx` whose bitmap bit was clear, copies `b`'s
contents into `n`, decrements `b`'s reference count by one, and leaves
`b`'s contents unchanged. -/
theorem needsCOW_performCOW_spec (snapshots : List SnapshotInfo)
    (s : AllocState) (b idx : Nat)
    (hwr : s.refcount.length = s.data_block_count) :
    (needsCOW snapshots s b = true ↔
      snapshots ≠ [] ∧ 1 < s.getBlockRef b) ∧
    (needsCOW snapshots s b = true →
     s.bitmap.getD (b - s.data_block_start) false = true →
     s.free_blocks ≠ 0 →
     s.findFreeBlock = some idx →
     (performCOW snapshots s b).1 = .ok (s.data_block_start + idx) ∧
     s.data_block_start + idx ≠ b ∧
     s.bitmap.getD idx false = false ∧
     (∀ j, (performCOW snapshots s b).2.disk.byte (s.data_block_start + idx) j =
       s.disk.byte b j) ∧
     (∀ j, (performCOW snapshots s b).2.disk.ptr (s.data_block_start + idx) j =
       s.disk.ptr b j) ∧
     (performCOW snapshots s b).2.getBlockRef b = s.getBlockRef b - 1 ∧
     (∀ j, (performCOW snapshots s b).2.disk.byte b j = s.disk.byte b j) ∧
     (∀ j, (performCOW snapshots s b).2.disk.ptr b j = s.disk.ptr b j)) := by
  constructor
  · unfold needsCOW
    by_cases he : snapshots.isEmpty
    · rw [if_pos he]
      simp [List.isEmpty_iff.mp he]
    · rw [if_neg he]
      have : snapshots ≠ [] := by
        intro hc
        exact he (by simp [hc])
      simp [this]
  · intro hcow halloc hfree hfound
    -- facts about the refcount of b
    have hrc1 : 1 < s.getBlockRef b := by
      unfold needsCOW at hcow
      by_cases he : snapshots.isEmpty
      · rw [if_pos he] at hcow
        cases hcow
      · rw [if_neg he] at hcow
        simpa using hcow
    have hvb : s.isValidDataBlock b = true := by
      by_contra hc
      have : s.getBlockRef b = 0 := by
        unfold AllocState.getBlockRef
        rw [if_pos (by simpa using hc)]
      omega
    have hrangeb : s.data_block_start ≤ b ∧
        b < s.data_block_start + s.data_block_count := by
      simpa [AllocState.isValidDataBlock] using hvb
    have hidxb : b - s.data_block_start < s.refcount.length := by omega
    have hrcb : s.refcount.getD (b - s.data_block_start) 0 = s.getBlockRef b := by
      unfold AllocState.getBlockRef
      rw [if_neg (by simp [hvb]), if_neg (by omega)]
    -- facts about the free slot idx
    have hidxmem : idx ∈ List.range s.data_block_count :=
      List.mem_of_find?_eq_some hfound
    have hidxlt : idx < s.data_block_count := List.mem_range.mp hidxmem
    have hidxfree : s.bitmap.getD idx false = false := by
      have := List.find?_some hfound
      simpa using this
    have hne : s.data_block_start + idx ≠ b := by
      intro hc
      have : idx = b - s.data_block_start := by omega
      rw [this, halloc] at hidxfree
      cases hidxfree
    have hidxne : idx ≠ b - s.data_block_start := by omega
    -- evaluate allocBlock
    have hab : s.allocBlock = (.ok (s.data_block_start + idx),
        { s with
            bitmap := s.bitmap.set idx true,
            refcount := s.refcount.set idx 1,
            disk := s.disk.writeBlockViews (s.data_block_start + idx)
              (fun _ => 0) (fun _ => 0),
            free_blocks := s.free_blocks - 1,
            used_blocks := s.used_blocks + 1 }) := by
      unfold AllocState.allocBlock
      rw [if_neg hfree, hfound]
      simp [show idx < s.refcount.length by omega]
    -- evaluate performCOW
    have hneeds : ¬ needsCOW snapshots s b = false := by
      rw [hcow]
      decide
    have hperf : performCOW snapshots s b =
        (.ok (s.data_block_start + idx),
         (({ s with
              bitmap := s.bitmap.set idx true,
              refcount := s.refcount.set idx 1,
              disk := (s.disk.writeBlockViews (s.data_block_start + idx)
                  (fun _ => 0) (fun _ => 0)).writeBlockViews
                (s.data_block_start + idx)
                ((s.disk.writeBlockViews (s.data_block_start + idx)
                  (fun _ => 0) (fun _ => 0)).ptr b)
                ((s.disk.writeBlockViews (s.data_block_start + idx)
                  (fun _ => 0) (fun _ => 0)).byte b),
              free_blocks := s.free_blocks - 1,
              used_blocks := s.used_blocks + 1 } : AllocState).decBlockRef
           b).2) := by
      unfold performCOW
      rw [if_neg hneeds, hab]
    -- the refcount of b is untouched by allocBlock
    have hrcb1 : (s.refcount.set idx 1).getD (b - s.data_block_start) 0 =
        s.refcount.getD (b - s.data_block_start) 0 := by
      simp only [List.getD_eq_getElem?_getD]
      rw [List.getElem?_set_ne hidxne]
    -- evaluate decBlockRef on the intermediate state
    rw [hperf]
    set mid : AllocState := { s with
        bitmap := s.bitmap.set idx true,
        refcount := s.refcount.set idx 1,
        disk := (s.disk.writeBlockViews (s.data_block_start + idx)
            (fun _ => 0) (fun _ => 0)).writeBlockViews
          (s.data_block_start + idx)
          ((s.disk.writeBlockViews (s.data_block_start + idx)
            (fun _ => 0) (fun _ => 0)).ptr b)
          ((s.disk.writeBlockViews (s.data_block_start + idx)
            (fun _ => 0) (fun _ => 0)).byte b),
        free_blocks := s.free_blocks - 1,
        used_blocks := s.used_blocks + 1 } with hmid
    have hdec : mid.decBlockRef b = (.ok (s.getBlockRef b - 1),
        { mid with refcount := mid.refcount.set (b - s.data_block_start) (s.getBlockRef b - 1) }) := by
      unfold AllocState.decBlockRef
      have hv2 : mid.isValidDataBlock b = true := hvb
      have hlen2 : mid.refcount.length = s.refcount.length := by
        rw [hmid]
        simp
      have hget2 : mid.refcount.getD (b - mid.data_block_start) 0 =
          s.getBlockRef b := by
        rw [hmid]
        simp only []
        rw [hrcb1, hrcb]
      rw [if_neg (by simp [hv2])]
      rw [if_neg (show ¬ mid.refcount.length ≤ b - mid.data_block_start by
        rw [hlen2]
        simp only [hmid]
        omega)]
      rw [if_neg (by rw [hget2]; omega), if_neg (by rw [hget2]; omega)]
      rw [hget2]
    rw [hdec]
    have hdiskmid : ∀ j,
        (mid.disk.byte (s.data_block_start + idx) j = s.disk.byte b j) ∧
        (mid.disk.ptr (s.data_block_start + idx) j = s.disk.ptr b j) ∧
        (mid.disk.byte b j = s.disk.byte b j) ∧
        (mid.disk.ptr b j = s.disk.ptr b j) := by
      intro j
      rw [hmid]
      simp only [Disk.writeBlockViews]
      refine ⟨?_, ?_, ?_, ?_⟩ <;> simp [hne, Ne.symm hne]
    refine ⟨rfl, hne, hidxfree, fun j => (hdiskmid j).1,
      fun j => (hdiskmid j).2.1, ?_, fun j => (hdiskmid j).2.2.1,
      fun j => (hdiskmid j).2.2.2⟩
    -- final refcount of b
    unfold AllocState.getBlockRef
    rw [if_neg (by simp [AllocState.isValidDataBlock]; omega)]
    rw [if_neg (show ¬ _ by
      simp only [hmid]
      simp only [List.length_set]
      omega)]
    simp only [hmid]
    simp only [List.getD_eq_getElem?_getD]
    rw [List.getElem?_set_eq_of_lt _ (by simp only [List.length_set]; omega)]
    rfl

/-- Witness for `needsCOW_performCOW_spec`: in state `a0` (data blocks
10..13, block 10 shared with refcount 2, one snapshot live, first free
bitmap slot 2), COW of block 10 allocates block 12 and drops block 10's
reference count to 1. -/
theorem needsCOW_performCOW_spec_witness :
    a0.refcount.length = a0.data_block_count ∧
    needsCOW [snap1] a0 10 = true ∧
    a0.bitmap.getD (10 - a0.data_block_start) false = true ∧
    a0.free_blocks ≠ 0 ∧
    a0.findFreeBlock = some 2 ∧
    (performCOW [snap1] a0 10).1 = .ok (a0.data_block_start + 2) ∧
    (performCOW [snap1] a0 10).2.getBlockRef 10 = a0.getBlockRef 10 - 1 := by
  refine ⟨by decide, by decide, by decide, by decide, by decide, ?_, ?_⟩
  · exact ((needsCOW_performCOW_spec [snap1] a0 10 2 (by decide)).2
      (by decide) (by decide) (by decide) (by decide)).1
  · exact ((needsCOW_performCOW_spec [snap1] a0 10 2 (by decide)).2
      (by decide) (by decide) (by decide) (by decide)).2.2.2.2.2.1

/-- C7 counterexample: write block 5 through to disk (leaving a clean
cached copy), disable the cache, overwrite block 5 on disk, re-enable
the cache.  The next flush succeeds without touching the stale clean
entry, so after the flush block 5's cached content differs from its
on-disk content. -/
theorem flush_inconsistent_after_disabled_write :
    ¬ cacheConsistent ((runOps initCDisk
      [CacheOp.write 5 [1] true, CacheOp.setEnabledOp false,
       CacheOp.write 5 [2] false, CacheOp.setEnabledOp true]).flush) := by
  intro h
  have h5 : ({ block_no := 5, data := [1], dirty := false } : CacheBlk) ∈
      ((runOps initCDisk
        [CacheOp.write 5 [1] true, CacheOp.setEnabledOp false,
         CacheOp.write 5 [2] false, CacheOp.setEnabledOp true]).flush).cache.entries := by
    decide
  have := h _ h5
  simp [runOps, runOp, initCDisk, CDisk.writeBlock, CDisk.flush, flushLoop,
    LRU.put, LRU.clearDirty, LRU.getDirtyBlocks, LRU.evictWhileFull] at this

/-- The eviction loop of `put` only drops blocks from the tail and
keeps the capacity. -/
theorem evictWhileFull_sublist (fuel : Nat) (l : LRU) :
    ((LRU.evictWhileFull fuel l).entries.Sublist l.entries) ∧
    (LRU.evictWhileFull fuel l).capacity = l.capacity := by
  induction fuel generalizing l with
  | zero => exact ⟨List.Sublist.refl _, rfl⟩
  | succ n ih =>
    unfold LRU.evictWhileFull
    by_cases h : l.capacity ≤ l.entries.length
    · rw [if_pos h]
      exact ⟨(ih l.evictLRU).1.trans (List.dropLast_sublist _), (ih l.evictLRU).2⟩
    · rw [if_neg h]
      exact ⟨List.Sublist.refl _, rfl⟩

/-- The eviction loop of `setCapacity` only drops blocks from the tail
and keeps the capacity. -/
theorem shrinkWhileOver_sublist (fuel : Nat) (l : LRU) :
    ((LRU.shrinkWhileOver fuel l).entries.Sublist l.entries) ∧
    (LRU.shrinkWhileOver fuel l).capacity = l.capacity := by
  induction fuel generalizing l with
  | zero => exact ⟨List.Sublist.refl _, rfl⟩
  | succ n ih =>
    unfold LRU.shrinkWhileOver
    by_cases h : l.capacity < l.entries.length
    · rw [if_pos h]
      exact ⟨(ih l.evictLRU).1.trans (List.dropLast_sublist _), (ih l.evictLRU).2⟩
    · rw [if_neg h]
      exact ⟨List.Sublist.refl _, rfl⟩

/-- Every block in the cache after a `put` is either the freshly stored
block (dirty if the store was dirty) or an untouched block under a
different key. -/
theorem mem_put (l : LRU) (bno : Nat) (data : List Nat) (dirty : Bool) :
    ∀ e ∈ (l.put bno data dirty).entries,
      (e.block_no = bno ∧ e.data = data ∧ (dirty = true → e.dirty = true)) ∨
      (e ∈ l.entries ∧ e.block_no ≠ bno) := by
  intro e he
  cases hf : l.entries.find? (fun x => x.block_no == bno) with
  | some e0 =>
    simp only [LRU.put, hf] at he
    rcases List.mem_cons.mp he with h1 | h1
    · left
      have hk : e0.block_no = bno := by
        have := List.find?_some hf
        simpa using this
      refine ⟨by rw [h1]; exact hk, by rw [h1], ?_⟩
      intro hd
      rw [h1]
      simp [hd]
    · right
      have := List.mem_filter.mp h1
      refine ⟨this.1, ?_⟩
      simpa using this.2
  | none =>
    simp only [LRU.put, hf] at he
    rcases List.mem_cons.mp he with h1 | h1
    · left
      rw [h1]
      exact ⟨rfl, rfl, fun hd => hd⟩
    · right
      have hmem : e ∈ l.entries :=
        (evictWhileFull_sublist l.entries.length l).1.mem h1
      refine ⟨hmem, ?_⟩
      have := List.find?_eq_none.mp hf e hmem
      simpa using this

/-- `put` keeps the cache keys pairwise distinct. -/
theorem keys_put (l : LRU) (bno : Nat) (data : List Nat) (dirty : Bool)
    (hnd : (l.entries.map CacheBlk.block_no).Nodup) :
    ((l.put bno data dirty).entries.map CacheBlk.block_no).Nodup := by
  cases hf : l.entries.find? (fun x => x.block_no == bno) with
  | some e0 =>
    simp only [LRU.put, hf, List.map_cons]
    have hk : e0.block_no = bno := by
      have := List.find?_some hf
      simpa using this
    refine List.nodup_cons.mpr ⟨?_, ?_⟩
    · intro hmem
      obtain ⟨x, hx, hxe⟩ := List.mem_map.mp hmem
      have := (List.mem_filter.mp hx).2
      rw [hk] at hxe
      simp [hxe] at this
    · exact List.Nodup.sublist ((List.filter_sublist l.entries).map _) hnd
  | none =>
    simp only [LRU.put, hf, List.map_cons]
    refine List.nodup_cons.mpr ⟨?_, ?_⟩
    · intro hmem
      obtain ⟨x, hx, hxe⟩ := List.mem_map.mp hmem
      have hxm : x ∈ l.entries :=
        (evictWhileFull_sublist l.entries.length l).1.mem hx
      have := List.find?_eq_none.mp hf x hxm
      simp [hxe] at this
    · exact List.Nodup.sublist
        (((evictWhileFull_sublist l.entries.length l).1).map _) hnd

/-- A cache hit only reorders the blocks. -/
theorem mem_get (l : LRU) (bno : Nat) :
    ∀ e ∈ (l.get bno).2.entries, e ∈ l.entries := by
  intro e he
  cases hf : l.entries.find? (fun x => x.block_no == bno) with
  | some e0 =>
    simp only [LRU.get, hf] at he
    rcases List.mem_cons.mp he with h1 | h1
    · rw [h1]
      exact List.mem_of_find?_eq_some hf
    · exact (List.mem_filter.mp h1).1
  | none =>
    simp only [LRU.get, hf] at he
    exact he

/-- A cache hit keeps the cache keys pairwise distinct. -/
theorem keys_get (l : LRU) (bno : Nat)
    (hnd : (l.entries.map CacheBlk.block_no).Nodup) :
    ((l.get bno).2.entries.map CacheBlk.block_no).Nodup := by
  cases hf : l.entries.find? (fun x => x.block_no == bno) with
  | some e0 =>
    simp only [LRU.get, hf, List.map_cons]
    have hk : e0.block_no = bno := by
      have := List.find?_some hf
      simpa using this
    refine List.nodup_cons.mpr ⟨?_, ?_⟩
    · intro hmem
      obtain ⟨x, hx, hxe⟩ := List.mem_map.mp hmem
      have := (List.mem_filter.mp hx).2
      rw [hk] at hxe
      simp [hxe] at this
    · exact List.Nodup.sublist ((List.filter_sublist l.entries).map _) hnd
  | none =>
    simp only [LRU.get, hf]
    exact hnd

/-- Every block after `clearDirty` is an original block with at most
its dirty flag cleared. -/
theorem mem_clearDirty (l : LRU) (bno : Nat) :
    ∀ e1 ∈ (l.clearDirty bno).entries, ∃ e ∈ l.entries,
      e1.block_no = e.block_no ∧ e1.data = e.data ∧
      e1.dirty = (if e.block_no = bno then false else e.dirty) := by
  intro e1 he1
  simp only [LRU.clearDirty] at he1
  obtain ⟨e, he, heq⟩ := List.mem_map.mp he1
  refine ⟨e, he, ?_⟩
  by_cases hk : e.block_no = bno
  · rw [← heq]
    simp [hk]
  · rw [← heq]
    simp [hk]

/-- `clearDirty` keeps every key (and the key order). -/
theorem keys_clearDirty (l : LRU) (bno : Nat) :
    (l.clearDirty bno).entries.map CacheBlk.block_no =
      l.entries.map CacheBlk.block_no := by
  simp only [LRU.clearDirty, List.map_map]
  apply List.map_congr_left
  intro e _
  by_cases hk : e.block_no = bno
  · simp [Function.comp, hk]
  · simp [Function.comp, hk]

/-- The write-back loop changes only the disk and the dirty flags. -/
theorem flushLoop_fields (dl : List (Nat × List Nat)) (c : CDisk) :
    (flushLoop dl c).cache_enabled = c.cache_enabled ∧
    (flushLoop dl c).write_through = c.write_through ∧
    (flushLoop dl c).cache.capacity = c.cache.capacity := by
  induction dl generalizing c with
  | nil => exact ⟨rfl, rfl, rfl⟩
  | cons p rest ih =>
    obtain ⟨bno, data⟩ := p
    exact ih _

/-- The write-back loop keeps every cache key (and the key order). -/
theorem flushLoop_keys (dl : List (Nat × List Nat)) (c : CDisk) :
    (flushLoop dl c).cache.entries.map CacheBlk.block_no =
      c.cache.entries.map CacheBlk.block_no := by
  induction dl generalizing c with
  | nil => rfl
  | cons p rest ih =>
    obtain ⟨bno, data⟩ := p
    rw [flushLoop, ih]
    exact keys_clearDirty _ _

/-- Every block in the cache after the write-back loop is an original
block with the same key and data, and at most its dirty flag cleared. -/
theorem flushLoop_mem (dl : List (Nat × List Nat)) (c : CDisk) :
    ∀ e1 ∈ (flushLoop dl c).cache.entries, ∃ e ∈ c.cache.entries,
      e1.block_no = e.block_no ∧ e1.data = e.data ∧
      (e1.dirty = true → e.dirty = true) := by
  induction dl generalizing c with
  | nil => exact fun e1 he1 => ⟨e1, he1, rfl, rfl, fun h => h⟩
  | cons p rest ih =>
    obtain ⟨bno, data⟩ := p
    intro e1 he1
    rw [flushLoop] at he1
    obtain ⟨e2, he2, hk2, hd2, hdirty2⟩ := ih _ e1 he1
    obtain ⟨e, he, hk, hd, hdirty⟩ := mem_clearDirty c.cache bno e2 he2
    refine ⟨e, he, hk2.trans hk, hd2.trans hd, ?_⟩
    intro h1
    have h2 := hdirty2 h1
    rw [hdirty] at h2
    by_cases hkb : e.block_no = bno
    · rw [if_pos hkb] at h2
      cases h2
    · rw [if_neg hkb] at h2
      exact h2

/-- After the write-back loop, every block whose key was listed (in
particular every block that was dirty when the dirty list was taken)
is clean. -/
theorem flushLoop_noDirty (dl : List (Nat × List Nat)) (c : CDisk)
    (hsub : ∀ e ∈ c.cache.entries, e.dirty = true →
      e.block_no ∈ dl.map Prod.fst) :
    ∀ e ∈ (flushLoop dl c).cache.entries, e.dirty = false := by
  induction dl generalizing c with
  | nil =>
    intro e he
    cases hd : e.dirty with
    | false => rfl
    | true => exact absurd (hsub e he hd) (List.not_mem_nil _)
  | cons p rest ih =>
    obtain ⟨bno, data⟩ := p
    rw [flushLoop]
    apply ih
    intro e1 he1 hd1
    obtain ⟨e, he, hk, _, hdirty⟩ := mem_clearDirty c.cache bno e1 he1
    rw [hdirty] at hd1
    by_cases hkb : e.block_no = bno
    · rw [if_pos hkb] at hd1
      cases hd1
    · rw [if_neg hkb] at hd1
      have := hsub e he hd1
      rw [List.map_cons] at this
      rcases List.mem_cons.mp this with h2 | h2
      · exact absurd (hk.trans h2) (by rw [hk]; exact hkb)
      · rw [hk]
        exact h2

/-- After the write-back loop, every clean block agrees with the disk,
provided the dirty list matches the cache contents (which the key
uniqueness of `cache_map_` guarantees for `getDirtyBlocks`). -/
theorem flushLoop_cleanAgree (dl : List (Nat × List Nat)) (c : CDisk)
    (hmatch : ∀ p ∈ dl, ∀ e ∈ c.cache.entries,
      e.block_no = p.1 → e.data = p.2)
    (hclean : ∀ e ∈ c.cache.entries, e.dirty = false →
      c.disk e.block_no = e.data) :
    ∀ e ∈ (flushLoop dl c).cache.entries, e.dirty = false →
      (flushLoop dl c).disk e.block_no = e.data := by
  induction dl generalizing c with
  | nil => exact hclean
  | cons p rest ih =>
    obtain ⟨bno, data⟩ := p
    rw [flushLoop]
    apply ih
    · intro q hq e1 he1 hk1
      obtain ⟨e, he, hk, hd, _⟩ := mem_clearDirty c.cache bno e1 he1
      rw [hd]
      exact hmatch q (List.mem_cons_of_mem _ hq) e he (hk ▸ hk1)
    · intro e1 he1 hd1
      obtain ⟨e, he, hk, hd, hdirty⟩ := mem_clearDirty c.cache bno e1 he1
      by_cases hkb : e.block_no = bno
      · have hdata : e.data = data :=
          hmatch (bno, data) (List.mem_cons_self _ _) e he hkb
        show (if e1.block_no = bno then data else c.disk e1.block_no) = e1.data
        rw [if_pos (hk.trans hkb), hd, hdata]
      · have hcl : e.dirty = false := by
          rw [hdirty, if_neg hkb] at hd1
          exact hd1
        show (if e1.block_no = bno then data else c.disk e1.block_no) = e1.data
        rw [if_neg (by rw [hk]; exact hkb), hk, hd]
        exact hclean e he hcl

/-- After any flush, no cached block is dirty: `getDirtyBlocks` lists
every dirty block, and the loop clears each listed key. -/
theorem flush_noDirty_all (c : CDisk) : noDirty c.flush := by
  unfold noDirty CDisk.flush
  apply flushLoop_noDirty
  intro e he hd
  unfold LRU.getDirtyBlocks
  rw [List.map_map]
  refine List.mem_map.mpr ⟨e, ?_, rfl⟩
  exact List.mem_filter.mpr ⟨he, by rw [hd]⟩

/-- Flushing a cache with distinct keys whose clean blocks agree with
the disk yields a cache with the same keys, the same flags, and clean
blocks that still agree with the disk. -/
theorem flush_inv (c : CDisk) (hnd : keysNodup c) (hca : cleanAgree c) :
    keysNodup c.flush ∧ cleanAgree c.flush ∧
    c.flush.cache_enabled = c.cache_enabled := by
  refine ⟨?_, ?_, (flushLoop_fields _ _).1⟩
  · unfold keysNodup CDisk.flush
    rw [flushLoop_keys]
    exact hnd
  · unfold cleanAgree CDisk.flush
    apply flushLoop_cleanAgree
    · intro p hp e he hk
      unfold LRU.getDirtyBlocks at hp
      obtain ⟨e0, he0f, hpe⟩ := List.mem_map.mp hp
      have he0 : e0 ∈ c.cache.entries := (List.mem_filter.mp he0f).1
      have hkeq : CacheBlk.block_no e = CacheBlk.block_no e0 := by
        rw [← hpe] at hk
        exact hk
      have : e = e0 := List.inj_on_of_nodup_map hnd he he0 hkeq
      rw [this, ← hpe]
    · exact hca

/-- `writeBlock` in write-through mode with the cache enabled: store
the block clean, write the disk, clear the dirty flag. -/
theorem writeBlock_wt (c : CDisk) (bno : Nat) (data : List Nat) (wt : Bool)
    (hen : c.cache_enabled = true) (hwt : (wt || c.write_through) = true) :
    c.writeBlock bno data wt = { c with cache := (c.cache.put bno data false).clearDirty bno, disk := fun n => if n = bno then data else c.disk n } := by
  simp [CDisk.writeBlock, hen, hwt]

/-- `writeBlock` in write-back mode with the cache enabled: store the
block dirty and leave the disk alone. -/
theorem writeBlock_wb (c : CDisk) (bno : Nat) (data : List Nat) (wt : Bool)
    (hen : c.cache_enabled = true) (hwt : (wt || c.write_through) = false) :
    c.writeBlock bno data wt = { c with cache := c.cache.put bno data true } := by
  simp [CDisk.writeBlock, hen, hwt]

/-- With the cache enabled, `readBlock` either reorders the cache (hit)
or inserts the block read from disk as a clean entry (miss). -/
theorem readBlock_cache (c : CDisk) (bno : Nat)
    (hen : c.cache_enabled = true) :
    (c.readBlock bno).2 = { c with cache := (c.cache.get bno).2 } ∨
    (c.readBlock bno).2 = { c with cache := c.cache.put bno (c.disk bno) false } := by
  cases hf : c.cache.entries.find? (fun e => e.block_no == bno) with
  | none =>
    right
    simp [CDisk.readBlock, LRU.get, hen, hf]
  | some e0 =>
    left
    simp [CDisk.readBlock, LRU.get, hen, hf]

/-- Each `CachedDisk` call other than disabling the cache preserves:
distinct cache keys, agreement of every clean cached block with the
disk, and the cache staying enabled. -/
theorem runOp_inv (c : CDisk) (op : CacheOp)
    (hop : op ≠ CacheOp.setEnabledOp false)
    (hnd : keysNodup c) (hca : cleanAgree c) (hen : c.cache_enabled = true) :
    keysNodup (runOp c op) ∧ cleanAgree (runOp c op) ∧
      (runOp c op).cache_enabled = true := by
  cases op with
  | write bno data wt =>
    simp only [runOp]
    cases hwt : (wt || c.write_through) with
    | true =>
      rw [writeBlock_wt c bno data wt hen hwt]
      refine ⟨?_, ?_, hen⟩
      · unfold keysNodup
        rw [keys_clearDirty]
        exact keys_put _ _ _ _ hnd
      · intro e1 he1 hd1
        obtain ⟨e, he, hk, hd, hdirty⟩ := mem_clearDirty _ bno e1 he1
        rcases mem_put c.cache bno data false e he with
          ⟨hkb, hdb, _⟩ | ⟨hmem, hkb⟩
        · show (if e1.block_no = bno then data else c.disk e1.block_no) = _
          rw [if_pos (hk.trans hkb), hd, hdb]
        · have hcl : e.dirty = false := by
            rw [hdirty, if_neg hkb] at hd1
            exact hd1
          show (if e1.block_no = bno then data else c.disk e1.block_no) = _
          rw [if_neg (by rw [hk]; exact hkb), hk, hd]
          exact hca e hmem hcl
    | false =>
      rw [writeBlock_wb c bno data wt hen hwt]
      refine ⟨keys_put _ _ _ _ hnd, ?_, hen⟩
      intro e1 he1 hd1
      rcases mem_put c.cache bno data true e1 he1 with
        ⟨_, _, hdb⟩ | ⟨hmem, _⟩
      · rw [hdb rfl] at hd1
        cases hd1
      · exact hca e1 hmem hd1
  | readOp bno =>
    simp only [runOp]
    rcases readBlock_cache c bno hen with hr | hr
    · rw [hr]
      refine ⟨keys_get _ _ hnd, ?_, hen⟩
      intro e1 he1 hd1
      exact hca e1 (mem_get c.cache bno e1 he1) hd1
    · rw [hr]
      refine ⟨keys_put _ _ _ _ hnd, ?_, hen⟩
      intro e1 he1 hd1
      rcases mem_put c.cache bno (c.disk bno) false e1 he1 with
        ⟨hkb, hdb, _⟩ | ⟨hmem, _⟩
      · rw [hkb, hdb]
      · exact hca e1 hmem hd1
  | flushOp =>
    obtain ⟨h1, h2, h3⟩ := flush_inv c hnd hca
    exact ⟨h1, h2, h3.trans hen⟩
  | invalidateOp bno =>
    simp only [runOp]
    refine ⟨?_, ?_, hen⟩
    · unfold keysNodup at hnd ⊢
      exact List.Nodup.sublist ((List.filter_sublist c.cache.entries).map _) hnd
    · intro e1 he1 hd1
      exact hca e1 (List.mem_filter.mp he1).1 hd1
  | clearCacheOp =>
    simp only [runOp]
    refine ⟨?_, ?_, ?_⟩
    · unfold keysNodup
      exact List.nodup_nil
    · intro e1 he1
      cases he1
    · exact (flushLoop_fields _ _).1.trans hen
  | setCapacityOp cap =>
    simp only [runOp]
    obtain ⟨h1, h2, h3⟩ := flush_inv c hnd hca
    have hsub := shrinkWhileOver_sublist c.flush.cache.entries.length
      { c.flush.cache with capacity := if 0 < cap then cap else 1 }
    refine ⟨?_, ?_, h3.trans hen⟩
    · unfold keysNodup at h1 ⊢
      exact List.Nodup.sublist (hsub.1.map _) h1
    · intro e1 he1 hd1
      exact h2 e1 (hsub.1.mem he1) hd1
  | setEnabledOp b =>
    cases b with
    | false => exact absurd rfl hop
    | true => exact ⟨hnd, hca, rfl⟩
  | setWriteThroughOp b => exact ⟨hnd, hca, hen⟩

/-- A sequence of `CachedDisk` calls that never disables the cache
preserves the cache invariants. -/
theorem runOps_inv (ops : List CacheOp) (c : CDisk)
    (hops : ∀ op ∈ ops, op ≠ CacheOp.setEnabledOp false)
    (hnd : keysNodup c) (hca : cleanAgree c) (hen : c.cache_enabled = true) :
    keysNodup (runOps c ops) ∧ cleanAgree (runOps c ops) ∧
      (runOps c ops).cache_enabled = true := by
  induction ops generalizing c with
  | nil => exact ⟨hnd, hca, hen⟩
  | cons op rest ih =>
    obtain ⟨h1, h2, h3⟩ := runOp_inv c op (hops op (List.mem_cons_self _ _))
      hnd hca hen
    exact ih _ (fun o ho => hops o (List.mem_cons_of_mem _ ho)) h1 h2 h3

/-- C7 (amended): after any flush the cache holds no dirty entry; and
if the cache was never disabled since construction, the on-disk
content of every cached block equals its cached content after the
flush.  (Disabling the cache routes writes past it, and no later flush
reconciles the stale clean entries, as the counterexample shows.) -/
theorem flush_spec (ops : List CacheOp) :
    noDirty ((runOps initCDisk ops).flush) ∧
    ((∀ op ∈ ops, op ≠ CacheOp.setEnabledOp false) →
      cacheConsistent ((runOps initCDisk ops).flush)) := by
  refine ⟨flush_noDirty_all _, ?_⟩
  intro hops
  have h0nd : keysNodup initCDisk := List.nodup_nil
  have h0ca : cleanAgree initCDisk := by
    intro e he
    cases he
  obtain ⟨hnd, hca, _⟩ := runOps_inv ops initCDisk hops h0nd h0ca rfl
  obtain ⟨_, h2, _⟩ := flush_inv (runOps initCDisk ops) hnd hca
  intro e he
  exact h2 e he (flush_noDirty_all (runOps initCDisk ops) e he)

/-- Witness for `flush_spec`: a single write-back write followed by the
flush, with the side condition discharged by computation. -/
theorem flush_spec_witness :
    (∀ op ∈ ([CacheOp.write 5 [1] false] : List CacheOp),
      op ≠ CacheOp.setEnabledOp false) ∧
    noDirty ((runOps initCDisk [CacheOp.write 5 [1] false]).flush) ∧
    cacheConsistent ((runOps initCDisk [CacheOp.write 5 [1] false]).flush) := by
  refine ⟨by decide, (flush_spec [CacheOp.write 5 [1] false]).1,
    (flush_spec [CacheOp.write 5 [1] false]).2 (by decide)⟩

/-- The trailing-slash strip returns a (reversed-side) suffix and never
empties a nonempty string. -/
theorem dropSlashesRev_spec (l : List Char) :
    (∃ t, l = t ++ dropSlashesRev l) ∧ (l ≠ [] → dropSlashesRev l ≠ []) := by
  induction l with
  | nil => exact ⟨⟨[], rfl⟩, fun h => absurd rfl h⟩
  | cons c rest ih =>
    by_cases h : c = '/' ∧ rest ≠ []
    · have e : dropSlashesRev (c :: rest) = dropSlashesRev rest := by
        simp only [dropSlashesRev]
        rw [if_pos h]
      rw [e]
      obtain ⟨t, ht⟩ := ih.1
      refine ⟨⟨c :: t, ?_⟩, fun _ => ih.2 h.2⟩
      rw [List.cons_append, ← ht]
    · have e : dropSlashesRev (c :: rest) = c :: rest := by
        simp only [dropSlashesRev]
        rw [if_neg h]
      rw [e]
      exact ⟨⟨[], rfl⟩, fun _ => List.cons_ne_nil c rest⟩

/-- The trailing-slash strip ends at a non-slash character or at a
single remaining character. -/
theorem dropSlashesRev_shape (l : List Char) :
    dropSlashesRev l = [] ∨ ∃ c rest, dropSlashesRev l = c :: rest ∧
      (c ≠ '/' ∨ rest = []) := by
  induction l with
  | nil => exact Or.inl rfl
  | cons c rest ih =>
    by_cases h : c = '/' ∧ rest ≠ []
    · have e : dropSlashesRev (c :: rest) = dropSlashesRev rest := by
        simp only [dropSlashesRev]
        rw [if_pos h]
      rw [e]
      exact ih
    · have e : dropSlashesRev (c :: rest) = c :: rest := by
        simp only [dropSlashesRev]
        rw [if_neg h]
      rw [e]
      right
      refine ⟨c, rest, rfl, ?_⟩
      by_cases hc : c = '/'
      · right
        by_contra hr
        exact h ⟨hc, hr⟩
      · exact Or.inl hc

/-- The duplicate-slash pass empties only an all-slash string. -/
theorem collapseAux_nil_last (l : List Char) :
    ∀ b : Bool, collapseAux b l = [] → l = [] ∨ l.getLast? = some '/' := by
  induction l with
  | nil => exact fun b _ => Or.inl rfl
  | cons c rest ih =>
    intro b h
    by_cases hc : c = '/'
    · cases b with
      | false =>
        have e : collapseAux false (c :: rest) = c :: collapseAux true rest := by
          simp [collapseAux, hc]
        rw [e] at h
        cases h
      | true =>
        have e : collapseAux true (c :: rest) = collapseAux true rest := by
          simp [collapseAux, hc]
        rw [e] at h
        rcases ih true h with h1 | h1
        · subst h1
          exact Or.inr (by simp [hc])
        · right
          have hne : rest ≠ [] := by
            intro hx
            rw [hx] at h1
            cases h1
          cases rest with
          | nil => exact absurd rfl hne
          | cons d rs => rw [List.getLast?_cons_cons]; exact h1
    · have e : collapseAux b (c :: rest) = c :: collapseAux false rest := by
        cases b <;> simp [collapseAux, hc]
      rw [e] at h
      cases h

/-- The head and the absence of duplicate slashes after the
duplicate-slash pass. -/
theorem collapse_noDoubleSlash (l : List Char) :
    (collapseAux true l).head? ≠ some '/' ∧
    noDoubleSlash (collapseAux true l) ∧ noDoubleSlash (collapseAux false l) := by
  induction l with
  | nil => exact ⟨by simp [collapseAux], trivial, trivial⟩
  | cons c rest ih =>
    obtain ⟨ih1, ih2, ih3⟩ := ih
    by_cases hc : c = '/'
    · have e1 : collapseAux true (c :: rest) = collapseAux true rest := by
        simp [collapseAux, hc]
      have e2 : collapseAux false (c :: rest) = c :: collapseAux true rest := by
        simp [collapseAux, hc]
      rw [e1, e2]
      exact ⟨ih1, ih2, fun _ => ih1, ih2⟩
    · have e1 : collapseAux true (c :: rest) = c :: collapseAux false rest := by
        simp [collapseAux, hc]
      have e2 : collapseAux false (c :: rest) = c :: collapseAux false rest := by
        simp [collapseAux, hc]
      rw [e1, e2]
      have hn : noDoubleSlash (c :: collapseAux false rest) :=
        ⟨fun h => absurd h hc, ih3⟩
      exact ⟨by simp [hc], hn, hn⟩

/-- The last element of a cons with a nonempty tail. -/
theorem getLast?_cons_ne (c : Char) (X : List Char) (h : X ≠ []) :
    (c :: X).getLast? = X.getLast? := by
  cases X with
  | nil => exact absurd rfl h
  | cons x xs => exact List.getLast?_cons_cons

/-- The duplicate-slash pass keeps the last character when it is not a
slash. -/
theorem collapseAux_getLast (l : List Char) :
    ∀ b : Bool, l.getLast? ≠ some '/' →
      (collapseAux b l).getLast? = l.getLast? := by
  induction l with
  | nil => intro b _; rfl
  | cons c rest ih =>
    intro b h
    cases rest with
    | nil =>
      have hc : c ≠ '/' := by simpa using h
      cases b <;> simp [collapseAux, hc]
    | cons d rs =>
      have h' : (d :: rs).getLast? ≠ some '/' := by
        rw [List.getLast?_cons_cons] at h
        exact h
      have hstep : ∀ b' : Bool,
          (c :: collapseAux b' (d :: rs)).getLast? = (c :: d :: rs).getLast? := by
        intro b'
        cases hX : collapseAux b' (d :: rs) with
        | nil =>
          rcases collapseAux_nil_last (d :: rs) b' hX with h1 | h1
          · cases h1
          · exact absurd h1 h'
        | cons x xs =>
          rw [← hX, getLast?_cons_ne c _ (by rw [hX]; exact List.cons_ne_nil x xs)]
          rw [ih b' h', List.getLast?_cons_cons]
      by_cases hc : c = '/'
      · cases b with
        | true =>
          have e : collapseAux true (c :: d :: rs) = collapseAux true (d :: rs) := by
            simp [collapseAux, hc]
          rw [e, ih true h', List.getLast?_cons_cons]
        | false =>
          have e : collapseAux false (c :: d :: rs) =
              c :: collapseAux true (d :: rs) := by
            simp [collapseAux, hc]
          rw [e]
          exact hstep true
      · have e : collapseAux b (c :: d :: rs) = c :: collapseAux false (d :: rs) := by
          cases b <;> simp [collapseAux, hc]
        rw [e]
        exact hstep false

/-- Stripping trailing slashes and collapsing duplicates keeps the
leading '/', and ends at "/" or at a non-slash character. -/
theorem strip_collapse_spec (s : List Char) (hne : s ≠ [])
    (hh : s.head? = some '/') :
    (collapseAux false (dropSlashesRev s.reverse).reverse).head? = some '/' ∧
    (collapseAux false (dropSlashesRev s.reverse).reverse = ['/'] ∨
      (collapseAux false (dropSlashesRev s.reverse).reverse).getLast? ≠
        some '/') := by
  have hrevne : s.reverse ≠ [] := by simpa using hne
  have hdne : dropSlashesRev s.reverse ≠ [] :=
    (dropSlashesRev_spec s.reverse).2 hrevne
  obtain ⟨t, ht⟩ := (dropSlashesRev_spec s.reverse).1
  have hsplit : s = (dropSlashesRev s.reverse).reverse ++ t.reverse := by
    have h2 := congrArg List.reverse ht
    simpa using h2
  rcases dropSlashesRev_shape s.reverse with h1 | ⟨c, rest, hcr, hor⟩
  · exact absurd h1 hdne
  have hr2 : (dropSlashesRev s.reverse).reverse = rest.reverse ++ [c] := by
    rw [hcr]
    simp
  constructor
  · obtain ⟨a, d', hd⟩ : ∃ a d', (dropSlashesRev s.reverse).reverse = a :: d' := by
      cases hdd : (dropSlashesRev s.reverse).reverse with
      | nil =>
        exfalso
        apply hdne
        simpa using hdd
      | cons a d' => exact ⟨a, d', rfl⟩
    have ha : a = '/' := by
      rw [hsplit, hd] at hh
      simpa using hh
    rw [hd, ha]
    simp [collapseAux]
  · rcases hor with hc | hrest
    · right
      have hlast : (dropSlashesRev s.reverse).reverse.getLast? = some c := by
        rw [hr2]
        simp
      rw [collapseAux_getLast _ false (by rw [hlast]; simp [hc]), hlast]
      simp [hc]
    · left
      have hc2 : (dropSlashesRev s.reverse).reverse = [c] := by
        rw [hr2, hrest]
        rfl
      have hcslash : c = '/' := by
        rw [hsplit, hc2] at hh
        simpa using hh
      rw [hc2, hcslash]
      simp [collapseAux]

/-- `normalizePath` output shape: absolute, no duplicate slash, and no
trailing slash except for the root path. -/
theorem normalizePath_spec (p : List Char) :
    (normalizePath p).head? = some '/' ∧
    noDoubleSlash (normalizePath p) ∧
    (normalizePath p = ['/'] ∨ (normalizePath p).getLast? ≠ some '/') := by
  by_cases hp : p = []
  · rw [normalizePath, if_pos hp]
    exact ⟨rfl, ⟨fun _ => by simp, trivial⟩, Or.inl rfl⟩
  · have hred : normalizePath p = collapseAux false
        ((dropSlashesRev ((if p.head? = some '/' then p
          else '/' :: p)).reverse).reverse) := by
      rw [normalizePath, if_neg hp]
    have hr1ne : (if p.head? = some '/' then p else '/' :: p) ≠ [] := by
      by_cases h : p.head? = some '/'
      · rw [if_pos h]
        exact hp
      · rw [if_neg h]
        exact List.cons_ne_nil _ _
    have hr1h : (if p.head? = some '/' then p else '/' :: p).head? = some '/' := by
      by_cases h : p.head? = some '/'
      · rw [if_pos h]
        exact h
      · rw [if_neg h]
        rfl
    obtain ⟨h1, h2⟩ := strip_collapse_spec _ hr1ne hr1h
    rw [hred]
    exact ⟨h1, (collapse_noDoubleSlash _).2.2, h2⟩

/-- C8: the path layer rejects empty and non-absolute inputs
(`isValidPath`); `normalizePath` yields an absolute path with no
duplicate slash and no trailing slash except for the root; the
component pass behind `resolvePath` skips empty components and ".",
interprets ".." as dropping the last accumulated component, clamping
at the root, so "/.." resolves to the root inode. -/
theorem path_layer_spec :
    (isValidPath [] = false) ∧
    (∀ (c : Char) (p : List Char), c ≠ '/' → isValidPath (c :: p) = false) ∧
    (∀ p : List Char, (normalizePath p).head? = some '/') ∧
    (∀ p : List Char, noDoubleSlash (normalizePath p)) ∧
    (∀ p : List Char, normalizePath p ≠ ['/'] →
      (normalizePath p).getLast? ≠ some '/') ∧
    (∀ (acc rest : List (List Char)),
      processTokens acc ([] :: rest) = processTokens acc rest) ∧
    (∀ (acc rest : List (List Char)),
      processTokens acc (['.'] :: rest) = processTokens acc rest) ∧
    (∀ (acc rest : List (List Char)),
      processTokens acc (['.', '.'] :: rest) =
        processTokens acc.dropLast rest) ∧
    (∀ rest : List (List Char),
      processTokens [] (['.', '.'] :: rest) = processTokens [] rest) ∧
    (∀ (readInode : Nat → FsRes Inode)
      (lookupInternal : Nat → List Char → FsRes Nat),
      resolvePath readInode lookupInternal ['/', '.', '.'] =
        .ok ROOT_INODE) := by
  refine ⟨rfl, ?_, ?_, ?_, ?_, ?_, ?_, ?_, ?_, ?_⟩
  · intro c p hc
    rw [isValidPath, if_neg (List.cons_ne_nil c p)]
    rw [if_pos (by simp [hc])]
  · exact fun p => (normalizePath_spec p).1
  · exact fun p => (normalizePath_spec p).2.1
  · intro p hne
    rcases (normalizePath_spec p).2.2 with h | h
    · exact absurd h hne
    · exact h
  · intro acc rest
    simp [processTokens]
  · intro acc rest
    simp [processTokens]
  · intro acc rest
    simp [processTokens]
  · intro rest
    simp [processTokens]
  · intro readInode lookupInternal
    rfl

/-- Witness for `path_layer_spec`: a relative path is rejected, and the
normal form of "/a" keeps no trailing slash. -/
theorem path_layer_spec_witness :
    ('a' ≠ '/' ∧ isValidPath ['a'] = false) ∧
    (normalizePath ['/', 'a'] ≠ ['/'] ∧
      (normalizePath ['/', 'a']).getLast? ≠ some '/') := by
  refine ⟨⟨by decide, path_layer_spec.2.1 'a' [] (by decide)⟩,
    by decide, path_layer_spec.2.2.2.2.1 ['/', 'a'] (by decide)⟩

end FsCore
